import Mathlib

/-!
Shallow embedding of the environment-filter builder and process launcher of
`src/parent.c` (the later, signal-aware revision: `find_env_var_value`,
`create_filtered_env`, `free_env_list`, `launch_child`), together with
theorems checking the natural-language specification against it.

Modelling conventions:
* C strings are NUL-free lists of characters (`CStr`).
* A `char **` environment array is a `List CStr`; the terminating NULL
  pointer is implicit (the end of the list).
* The manifest file is the sequence of raw lines `getline` would yield,
  each still carrying its trailing newline character where the file has
  one; `none` models a file that could not be opened.
* `malloc`/`realloc` outcomes are driven by an explicit oracle, a list of
  booleans consumed in allocation order; an exhausted oracle means every
  remaining allocation succeeds, so the empty oracle is the normal run.
* `signal_flag` is taken to be 0 (no signal observed) inside
  `create_filtered_env`; the launcher models it as an input flag checked
  once on entry, as all properties below concern signal-free runs.
-/

namespace OsaspLab2

/-- C strings: NUL-free character lists. -/
abbrev CStr := List Char

/-- Fixed name of the synthesized sentinel variable
(`ENV_VAR_FILTER_FILE_NAME` in parent.c). -/
def ENV_VAR_FILTER_FILE_NAME : CStr := "CHILD_ENV_FILTER_FILE".toList

/-- Fixed base name of the worker executable (`CHILD_EXECUTABLE_NAME`). -/
def CHILD_EXECUTABLE_NAME : CStr := "child".toList

/-- Name of the launcher-directory variable looked up by `launch_child`. -/
def CHILD_PATH_VAR : CStr := "CHILD_PATH".toList

/-- Ceiling on the worker counter (`MAX_CHILDREN` in parent.c). -/
def MAX_CHILDREN : Nat := 100

/-- Size of the `child_exec_path` buffer (`PATH_BUFFER_SIZE`). -/
def PATH_BUFFER_SIZE : Nat := 4096

/-- Size of the `child_argv0` buffer (`char child_argv0[32]`). -/
def ARGV0_BUFFER_SIZE : Nat := 32

/-- Scan loop of `find_env_var_value` (parent.c): first entry that starts
with the name immediately followed by an equals sign wins; the value is
the text after that equals sign. -/
def scan_env (var_name : CStr) : List CStr → Option CStr
  | [] => none
  | e :: rest =>
    if (var_name ++ ['=']).isPrefixOf e then some (e.drop (var_name.length + 1))
    else scan_env var_name rest

/-- Embedding of `find_env_var_value` (parent.c, later revision): guards
against an empty name, then performs the first-match scan. The C NULL
checks on the pointers are not representable (lists are never NULL). -/
def find_env_var_value (var_name : CStr) (env_array : List CStr) : Option CStr :=
  if var_name.length = 0 then none else scan_env var_name env_array

/-- Embedding of the canonical process lookup facility `getenv`: a forward
first-match scan of the process-wide environment table, which is how the
C library implements it. -/
def c_getenv (var_name : CStr) (environ : List CStr) : Option CStr :=
  scan_env var_name environ

/-- Per-line terminator handling of `create_filtered_env`: drop the final
character exactly when it is a bare newline (a carriage return of a CRLF
pair is kept). -/
def clean_line (raw : CStr) : CStr :=
  if raw.getLast? = some '\n' then raw.dropLast else raw

/-- Skip condition of `create_filtered_env`: after terminator handling the
line is empty, or its first character is the comment character. -/
def skip_line (l : CStr) : Bool :=
  decide (l = [] ∨ l.head? = some '#')

/-- One allocation decision: take the next oracle entry, an exhausted
oracle meaning success. -/
def allocStep : List Bool → Bool × List Bool
  | [] => (true, [])
  | b :: rest => (b, rest)

/-- Embedding of `env_list_t` (parent.c): `vars = none` models a NULL
array pointer; otherwise the list holds the entries that precede the
terminating NULL. -/
structure env_list_t where
  vars : Option (List CStr)
  count : Nat
  capacity : Nat
deriving DecidableEq, Repr

/-- Main loop of `create_filtered_env` over the manifest's raw lines,
threading the accumulated entries, count, capacity and allocation oracle;
`none` models the allocation-failure return (array released, NULL result). -/
def filterLoop (src : List CStr) :
    List CStr → List CStr → Nat → Nat → List Bool →
    Option (List CStr × Nat × Nat × List Bool)
  | [], acc, count, cap, oracle => some (acc, count, cap, oracle)
  | raw :: rest, acc, count, cap, oracle =>
    let line := clean_line raw
    if skip_line line then filterLoop src rest acc count cap oracle
    else
      match find_env_var_value line src with
      | none => filterLoop src rest acc count cap oracle
      | some v =>
        match allocStep oracle with
        | (false, _) => none
        | (true, oracle₁) =>
          let entry := line ++ '=' :: v
          if cap - 1 ≤ count then
            match allocStep oracle₁ with
            | (false, _) => none
            | (true, oracle₂) =>
              filterLoop src rest (acc ++ [entry]) (count + 1) (cap * 2) oracle₂
          else filterLoop src rest (acc ++ [entry]) (count + 1) cap oracle₁

/-- Synthesized sentinel entry: sentinel name, equals sign, manifest path. -/
def sentinel_entry (filter_filename : CStr) : CStr :=
  ENV_VAR_FILTER_FILE_NAME ++ '=' :: filter_filename

/-- Embedding of `create_filtered_env` (parent.c, later revision).
`filter_file` is the manifest's raw line sequence, `none` when `fopen`
fails; `filter_filename` is the path passed in (used for the sentinel
value); the oracle drives `malloc`/`realloc` outcomes in program order:
initial array, then per accepted line the entry allocation followed by a
doubling reallocation when the array is full, then the sentinel entry
allocation followed by a `+2` reallocation when full. -/
def create_filtered_env (filter_file : Option (List CStr)) (filter_filename : CStr)
    (source_env : List CStr) (oracle : List Bool) : env_list_t :=
  match filter_file with
  | none => { vars := none, count := 0, capacity := 10 }
  | some rawLines =>
    match allocStep oracle with
    | (false, _) => { vars := none, count := 0, capacity := 10 }
    | (true, oracle₀) =>
      match filterLoop source_env rawLines [] 0 10 oracle₀ with
      | none => { vars := none, count := 0, capacity := 0 }
      | some (acc, count, cap, oracle₁) =>
        match allocStep oracle₁ with
        | (false, _) => { vars := none, count := 0, capacity := 0 }
        | (true, oracle₂) =>
          if cap - 1 ≤ count then
            match allocStep oracle₂ with
            | (false, _) => { vars := none, count := 0, capacity := 0 }
            | (true, _) =>
              { vars := some (acc ++ [sentinel_entry filter_filename]),
                count := count + 1, capacity := cap + 2 }
          else
            { vars := some (acc ++ [sentinel_entry filter_filename]),
              count := count + 1, capacity := cap }

/-- Embedding of `free_env_list` (parent.c): `none` models a NULL structure
pointer. The first component is the structure after the call; the second
lists the strings actually passed to `free`, so a call that frees nothing
is visible as an empty second component. -/
def free_env_list (list : Option env_list_t) : Option env_list_t × List CStr :=
  match list with
  | none => (none, [])
  | some l =>
    match l.vars with
    | none => (some { vars := none, count := 0, capacity := 0 }, [])
    | some vs => (some { vars := none, count := 0, capacity := 0 }, vs.take l.count)

/-- Rendering of the `%.2d` conversion for a non-negative count: at least
two digits, zero padded. -/
def format2d (n : Nat) : CStr :=
  if n < 10 then '0' :: Nat.toDigits 10 n else Nat.toDigits 10 n

/-- Abstract names for the distinct failure exits of `launch_child`,
distinguishable in the C code by their diagnostic messages. -/
inductive launch_error where
  | signalAbort | tooManyChildren | invalidMethod | childPathUnset | childPathEmpty
  | pathTooLong | argv0Truncated | filterEnvFailed | forkFailed
deriving DecidableEq, Repr

/-- Observable outcome of one `launch_child` call: the C return value, the
worker counter after the call, whether `fork` was reached, whether a child
process came into existence, the formatted `argv[0]` when it reached the
fork, and which failure exit was taken, if any. -/
structure launch_result where
  ret : Int
  g_child_number : Nat
  forkAttempted : Bool
  processCreated : Bool
  childArgv0 : Option CStr
  err : Option launch_error
deriving DecidableEq, Repr

/-- Embedding of `launch_child` (parent.c, later revision). Inputs:
`signal_flag` as sampled on entry, the current worker counter, the method
character, `main`'s `envp` snapshot, the process-wide `environ`, the
manifest (content plus path) and allocation oracle consumed by
`create_filtered_env(filter_filename, environ)`, and whether `fork`
succeeds. -/
def launch_child (signal_flag : Bool) (g_child_number : Nat) (method : Char)
    (main_envp environ : List CStr) (filter_file : Option (List CStr))
    (filter_filename : CStr) (oracle : List Bool) (fork_ok : Bool) : launch_result :=
  if signal_flag then
    ⟨-1, g_child_number, false, false, none, some .signalAbort⟩
  else if MAX_CHILDREN ≤ g_child_number then
    ⟨-1, g_child_number, false, false, none, some .tooManyChildren⟩
  else
    match (if method = '+' then some (c_getenv CHILD_PATH_VAR environ)
           else if method = '*' then some (find_env_var_value CHILD_PATH_VAR main_envp)
           else if method = '&' then some (find_env_var_value CHILD_PATH_VAR environ)
           else none) with
    | none => ⟨-1, g_child_number, false, false, none, some .invalidMethod⟩
    | some child_dir =>
      match child_dir with
      | none => ⟨-1, g_child_number, false, false, none, some .childPathUnset⟩
      | some dir =>
        if dir.length = 0 then
          ⟨-1, g_child_number, false, false, none, some .childPathEmpty⟩
        else if PATH_BUFFER_SIZE ≤ dir.length + 1 + CHILD_EXECUTABLE_NAME.length then
          ⟨-1, g_child_number, false, false, none, some .pathTooLong⟩
        else
          let child_argv0 := CHILD_EXECUTABLE_NAME ++ '_' :: format2d g_child_number
          if ARGV0_BUFFER_SIZE ≤ child_argv0.length then
            ⟨-1, g_child_number, false, false, none, some .argv0Truncated⟩
          else
            match (create_filtered_env filter_file filter_filename environ oracle).vars with
            | none => ⟨-1, g_child_number, false, false, none, some .filterEnvFailed⟩
            | some _ =>
              if fork_ok then
                ⟨0, g_child_number + 1, true, true, some child_argv0, none⟩
              else
                ⟨-1, g_child_number, true, false, some child_argv0, some .forkFailed⟩

/-- Names requested by the manifest after the builder's own line handling:
terminator-handled lines that are neither empty nor comments, in order. -/
def processedLines (rawLines : List CStr) : List CStr :=
  (rawLines.map clean_line).filter (fun l => !skip_line l)

/-- Entries contributed by the manifest's lines: one `NAME=VALUE` string
per processed line whose name resolves in the source environment. -/
def entriesOf (src : List CStr) : List CStr → List CStr
  | [] => []
  | raw :: rest =>
    let l := clean_line raw
    if skip_line l then entriesOf src rest
    else
      match find_env_var_value l src with
      | none => entriesOf src rest
      | some v => (l ++ '=' :: v) :: entriesOf src rest

/-- Processed lines whose name resolves in the source environment. -/
def foundLines (src : List CStr) (rawLines : List CStr) : List CStr :=
  (processedLines rawLines).filter (fun l => (find_env_var_value l src).isSome)

/-- Modelled from the spec, § 4.1 step 2: which characters count as
whitespace for the spec's trimming (the C locale's `isspace` set). -/
def spec_is_space (c : Char) : Bool :=
  c = ' ' || c = '\t' || c = '\n' || c = '\x0b' || c = '\x0c' || c = '\r'

/-- Modelled from the spec, § 4.1 step 2: strip a trailing line terminator
in both its bare (`\n`) and paired (`\r\n`) forms. -/
def spec_strip_terminator (raw : CStr) : CStr :=
  if (['\r', '\n']).isSuffixOf raw then raw.dropLast.dropLast
  else if raw.getLast? = some '\n' then raw.dropLast
  else raw

/-- Modelled from the spec, § 4.1 step 2: trim surrounding whitespace. -/
def spec_trim (l : CStr) : CStr :=
  (l.dropWhile spec_is_space).reverse.dropWhile spec_is_space |>.reverse

/-- Modelled from the spec, § 4.1 step 2: the line text as the spec says it
is interpreted — terminator stripped in both forms, then trimmed. -/
def spec_clean_line (raw : CStr) : CStr :=
  spec_trim (spec_strip_terminator raw)

/-! ## Helper lemmas -/

theorem entriesOf_cons (src : List CStr) (raw : CStr) (rest : List CStr) :
    entriesOf src (raw :: rest) =
      if skip_line (clean_line raw) then entriesOf src rest
      else
        match find_env_var_value (clean_line raw) src with
        | none => entriesOf src rest
        | some v => (clean_line raw ++ '=' :: v) :: entriesOf src rest := by
  rfl

theorem processedLines_nil : processedLines [] = [] := rfl

theorem processedLines_cons (raw : CStr) (rest : List CStr) :
    processedLines (raw :: rest) =
      if skip_line (clean_line raw) then processedLines rest
      else clean_line raw :: processedLines rest := by
  simp only [processedLines, List.map_cons, List.filter_cons]
  by_cases h : skip_line (clean_line raw) <;> simp [h]

/-- The main loop, run with the all-success oracle, appends exactly the
entries of the manifest and counts them, and keeps room for the
terminating NULL whenever it started with room for it. -/
theorem filterLoop_empty_oracle (src : List CStr) :
    ∀ (L acc : List CStr) (count cap : Nat), count + 1 ≤ cap →
    ∃ cap', filterLoop src L acc count cap [] =
        some (acc ++ entriesOf src L, count + (entriesOf src L).length, cap', []) ∧
      count + (entriesOf src L).length + 1 ≤ cap' := by
  intro L
  induction L with
  | nil =>
    intro acc count cap hcap
    exact ⟨cap, by simp [filterLoop, entriesOf], by simpa using hcap⟩
  | cons raw rest ih =>
    intro acc count cap hcap
    by_cases hskip : skip_line (clean_line raw)
    · rw [entriesOf_cons]
      simpa [filterLoop, hskip] using ih acc count cap hcap
    · cases hfind : find_env_var_value (clean_line raw) src with
      | none =>
        rw [entriesOf_cons]
        simpa [filterLoop, hskip, hfind] using ih acc count cap hcap
      | some v =>
        have hent : entriesOf src (raw :: rest) =
            (clean_line raw ++ '=' :: v) :: entriesOf src rest := by
          rw [entriesOf_cons]; simp [hskip, hfind]
        rw [hent]
        by_cases hfull : cap - 1 ≤ count
        · obtain ⟨cap', h₁, h₂⟩ :=
            ih (acc ++ [clean_line raw ++ '=' :: v]) (count + 1) (cap * 2) (by omega)
          have hstep : filterLoop src (raw :: rest) acc count cap [] =
              filterLoop src rest (acc ++ [clean_line raw ++ '=' :: v]) (count + 1)
                (cap * 2) [] := by
            simp [filterLoop, hskip, hfind, allocStep, hfull]
          refine ⟨cap', ?_, by simp only [List.length_cons]; omega⟩
          rw [hstep, h₁]
          simp [List.append_assoc]
          omega
        · obtain ⟨cap', h₁, h₂⟩ :=
            ih (acc ++ [clean_line raw ++ '=' :: v]) (count + 1) cap (by omega)
          have hstep : filterLoop src (raw :: rest) acc count cap [] =
              filterLoop src rest (acc ++ [clean_line raw ++ '=' :: v]) (count + 1)
                cap [] := by
            simp [filterLoop, hskip, hfind, allocStep, hfull]
          refine ⟨cap', ?_, by simp only [List.length_cons]; omega⟩
          rw [hstep, h₁]
          simp [List.append_assoc]
          omega

/-- Successful normal run of the builder: the result is the manifest's
entries followed by the sentinel, the count is their number, and the
capacity leaves room for the terminating NULL. -/
theorem create_filtered_env_empty_oracle (L : List CStr) (f : CStr) (src : List CStr) :
    ∃ cap', create_filtered_env (some L) f src [] =
        { vars := some (entriesOf src L ++ [sentinel_entry f]),
          count := (entriesOf src L).length + 1, capacity := cap' } ∧
      (entriesOf src L).length + 1 + 1 ≤ cap' := by
  obtain ⟨cap', h₁, h₂⟩ := filterLoop_empty_oracle src L [] 0 10 (by omega)
  simp only [List.nil_append, Nat.zero_add] at h₁ h₂
  by_cases hfull : cap' - 1 ≤ (entriesOf src L).length
  · refine ⟨cap' + 2, ?_, by omega⟩
    simp [create_filtered_env, allocStep, h₁, hfull]
  · refine ⟨cap', ?_, by omega⟩
    simp [create_filtered_env, allocStep, h₁, hfull]

theorem skip_line_eq_true_iff (l : CStr) :
    skip_line l = true ↔ (l = [] ∨ l.head? = some '#') := by
  simp [skip_line]

theorem skip_line_eq_false_iff (l : CStr) :
    skip_line l = false ↔ (l ≠ [] ∧ l.head? ≠ some '#') := by
  simp [skip_line]

theorem c_getenv_eq_find (var_name : CStr) (env : List CStr) (h : var_name ≠ []) :
    c_getenv var_name env = find_env_var_value var_name env := by
  have : var_name.length ≠ 0 := by simpa using h
  simp [c_getenv, find_env_var_value, this]

/-- Every entry in the manifest's contribution comes from a processed line
whose name resolved, and has the shape name, equals sign, value. -/
theorem entriesOf_shape (src : List CStr) :
    ∀ (L : List CStr), ∀ e ∈ entriesOf src L,
      ∃ raw v, raw ∈ L ∧ skip_line (clean_line raw) = false ∧
        find_env_var_value (clean_line raw) src = some v ∧
        e = clean_line raw ++ '=' :: v := by
  intro L
  induction L with
  | nil => intro e he; simp [entriesOf] at he
  | cons raw rest ih =>
    intro e he
    rw [entriesOf_cons] at he
    by_cases hskip : skip_line (clean_line raw)
    · rw [if_pos hskip] at he
      obtain ⟨r, v, hr, h₁, h₂, h₃⟩ := ih e he
      exact ⟨r, v, List.mem_cons_of_mem _ hr, h₁, h₂, h₃⟩
    · rw [if_neg hskip] at he
      cases hfind : find_env_var_value (clean_line raw) src with
      | none =>
        rw [hfind] at he
        obtain ⟨r, v, hr, h₁, h₂, h₃⟩ := ih e he
        exact ⟨r, v, List.mem_cons_of_mem _ hr, h₁, h₂, h₃⟩
      | some v =>
        rw [hfind] at he
        rcases List.mem_cons.mp he with heq | he'
        · exact ⟨raw, v, List.mem_cons_self _ _, by simpa using hskip, hfind, heq⟩
        · obtain ⟨r, v', hr, h₁, h₂, h₃⟩ := ih e he'
          exact ⟨r, v', List.mem_cons_of_mem _ hr, h₁, h₂, h₃⟩

/-- A manifest all of whose lines are skipped contributes no entries. -/
theorem entriesOf_all_skip (src : List CStr) :
    ∀ (L : List CStr), (∀ raw ∈ L, skip_line (clean_line raw) = true) →
      entriesOf src L = [] := by
  intro L
  induction L with
  | nil => intro _; rfl
  | cons raw rest ih =>
    intro h
    rw [entriesOf_cons, if_pos (h raw (List.mem_cons_self _ _))]
    exact ih (fun r hr => h r (List.mem_cons_of_mem _ hr))

/-- When every processed line resolves, the entries are exactly the
processed lines rendered as name, equals sign, resolved value, in order. -/
theorem entriesOf_all_present (src : List CStr) :
    ∀ (L : List CStr),
      (∀ raw ∈ L, skip_line (clean_line raw) = false →
        (find_env_var_value (clean_line raw) src).isSome = true) →
      entriesOf src L = (processedLines L).map
        (fun l => l ++ '=' :: ((find_env_var_value l src).getD [])) := by
  intro L
  induction L with
  | nil => intro _; rfl
  | cons raw rest ih =>
    intro h
    have hrest := fun r hr => h r (List.mem_cons_of_mem _ hr)
    rw [entriesOf_cons, processedLines_cons]
    by_cases hskip : skip_line (clean_line raw)
    · rw [if_pos hskip, if_pos hskip]
      exact ih hrest
    · rw [if_neg hskip, if_neg hskip]
      have hsome := h raw (List.mem_cons_self _ _) (by simpa using hskip)
      cases hfind : find_env_var_value (clean_line raw) src with
      | none => rw [hfind] at hsome; simp at hsome
      | some v => simp [hfind, ih hrest]

theorem foundLines_cons (src : List CStr) (raw : CStr) (rest : List CStr) :
    foundLines src (raw :: rest) =
      if skip_line (clean_line raw) then foundLines src rest
      else if (find_env_var_value (clean_line raw) src).isSome then
        clean_line raw :: foundLines src rest
      else foundLines src rest := by
  unfold foundLines
  rw [processedLines_cons]
  by_cases hskip : skip_line (clean_line raw)
  · rw [if_pos hskip, if_pos hskip]
  · rw [if_neg hskip, if_neg hskip, List.filter_cons]

/-- In general the entries are the found lines rendered in order. -/
theorem entriesOf_eq_foundLines_map (src : List CStr) :
    ∀ (L : List CStr),
      entriesOf src L = (foundLines src L).map
        (fun l => l ++ '=' :: ((find_env_var_value l src).getD [])) := by
  intro L
  induction L with
  | nil => rfl
  | cons raw rest ih =>
    rw [entriesOf_cons, foundLines_cons]
    by_cases hskip : skip_line (clean_line raw)
    · rw [if_pos hskip, if_pos hskip]
      exact ih
    · rw [if_neg hskip, if_neg hskip]
      cases hfind : find_env_var_value (clean_line raw) src with
      | none => simpa [hfind] using ih
      | some v => simpa [hfind] using ih

theorem length_filter_add_length_filter_not (p : CStr → Bool) :
    ∀ (xs : List CStr),
      (xs.filter p).length + (xs.filter (fun x => !(p x))).length = xs.length := by
  intro xs
  induction xs with
  | nil => rfl
  | cons x rest ih =>
    cases hp : p x <;> simp [List.filter_cons, hp] <;> omega

/-- Splitting the processed lines by whether their name resolves. -/
theorem foundLines_length_add_missing (src : List CStr) (L : List CStr) :
    (foundLines src L).length +
      ((processedLines L).filter
        (fun l => !((find_env_var_value l src).isSome))).length =
      (processedLines L).length :=
  length_filter_add_length_filter_not _ _

/-- A true allocation step consumes a prefix of all-true decisions. -/
theorem allocStep_true_consumed (oracle oracle' : List Bool)
    (h : allocStep oracle = (true, oracle')) :
    ∃ used, oracle = used ++ oracle' ∧ ∀ b ∈ used, b = true := by
  cases oracle with
  | nil =>
    simp [allocStep] at h
    exact ⟨[], by simp [h]⟩
  | cons b rest =>
    simp [allocStep] at h
    exact ⟨[true], by simp [h], by simp⟩

/-- A successful pass of the main loop consumed only successful
allocation decisions. -/
theorem filterLoop_consumed (src : List CStr) :
    ∀ (L acc : List CStr) (count cap : Nat) (oracle : List Bool)
      (acc' : List CStr) (count' cap' : Nat) (oracle' : List Bool),
      filterLoop src L acc count cap oracle = some (acc', count', cap', oracle') →
      ∃ used, oracle = used ++ oracle' ∧ ∀ b ∈ used, b = true := by
  intro L
  induction L with
  | nil =>
    intro acc count cap oracle acc' count' cap' oracle' h
    simp [filterLoop] at h
    exact ⟨[], by simp [h], by simp⟩
  | cons raw rest ih =>
    intro acc count cap oracle acc' count' cap' oracle' h
    by_cases hskip : skip_line (clean_line raw)
    · rw [show filterLoop src (raw :: rest) acc count cap oracle =
          filterLoop src rest acc count cap oracle by simp [filterLoop, hskip]] at h
      exact ih _ _ _ _ _ _ _ _ h
    · cases hfind : find_env_var_value (clean_line raw) src with
      | none =>
        rw [show filterLoop src (raw :: rest) acc count cap oracle =
            filterLoop src rest acc count cap oracle by
          simp [filterLoop, hskip, hfind]] at h
        exact ih _ _ _ _ _ _ _ _ h
      | some v =>
        cases halloc : allocStep oracle with
        | mk ok₁ oracle₁ =>
          cases ok₁ with
          | false =>
            exfalso
            rw [show filterLoop src (raw :: rest) acc count cap oracle = none by
              simp [filterLoop, hskip, hfind, halloc]] at h
            exact Option.noConfusion h
          | true =>
            obtain ⟨used₁, hu₁, ha₁⟩ := allocStep_true_consumed _ _ halloc
            by_cases hfull : cap - 1 ≤ count
            · cases halloc₂ : allocStep oracle₁ with
              | mk ok₂ oracle₂ =>
                cases ok₂ with
                | false =>
                  exfalso
                  rw [show filterLoop src (raw :: rest) acc count cap oracle = none by
                    simp [filterLoop, hskip, hfind, halloc, hfull, halloc₂]] at h
                  exact Option.noConfusion h
                | true =>
                  obtain ⟨used₂, hu₂, ha₂⟩ := allocStep_true_consumed _ _ halloc₂
                  rw [show filterLoop src (raw :: rest) acc count cap oracle =
                      filterLoop src rest (acc ++ [clean_line raw ++ '=' :: v])
                        (count + 1) (cap * 2) oracle₂ by
                    simp [filterLoop, hskip, hfind, halloc, hfull, halloc₂]] at h
                  obtain ⟨used₃, hu₃, ha₃⟩ := ih _ _ _ _ _ _ _ _ h
                  refine ⟨used₁ ++ used₂ ++ used₃, ?_, ?_⟩
                  · rw [hu₁, hu₂, hu₃]; simp [List.append_assoc]
                  · intro b hb
                    simp at hb
                    rcases hb with hb | hb | hb
                    exacts [ha₁ b hb, ha₂ b hb, ha₃ b hb]
            · rw [show filterLoop src (raw :: rest) acc count cap oracle =
                  filterLoop src rest (acc ++ [clean_line raw ++ '=' :: v])
                    (count + 1) cap oracle₁ by
                simp [filterLoop, hskip, hfind, halloc, hfull]] at h
              obtain ⟨used₃, hu₃, ha₃⟩ := ih _ _ _ _ _ _ _ _ h
              refine ⟨used₁ ++ used₃, ?_, ?_⟩
              · rw [hu₁, hu₃]; simp [List.append_assoc]
              · intro b hb
                simp at hb
                rcases hb with hb | hb
                exacts [ha₁ b hb, ha₃ b hb]

/-- A builder run that hands back a non-NULL array consumed only
successful allocation decisions: no consulted allocation failed. -/
theorem create_filtered_env_consumed (file : Option (List CStr)) (f : CStr)
    (src : List CStr) (oracle : List Bool)
    (h : (create_filtered_env file f src oracle).vars.isSome = true) :
    ∃ used rest, oracle = used ++ rest ∧ ∀ b ∈ used, b = true := by
  cases file with
  | none => simp [create_filtered_env] at h
  | some L =>
    cases halloc₀ : allocStep oracle with
    | mk ok₀ oracle₀ =>
      cases ok₀ with
      | false => simp [create_filtered_env, halloc₀] at h
      | true =>
        obtain ⟨used₀, hu₀, ha₀⟩ := allocStep_true_consumed _ _ halloc₀
        cases hloop : filterLoop src L [] 0 10 oracle₀ with
        | none => simp [create_filtered_env, halloc₀, hloop] at h
        | some r =>
          obtain ⟨acc, count, cap, oracle₁⟩ := r
          obtain ⟨used₁, hu₁, ha₁⟩ := filterLoop_consumed src L [] 0 10 oracle₀
            acc count cap oracle₁ hloop
          cases halloc₂ : allocStep oracle₁ with
          | mk ok₂ oracle₂ =>
            cases ok₂ with
            | false => simp [create_filtered_env, halloc₀, hloop, halloc₂] at h
            | true =>
              obtain ⟨used₂, hu₂, ha₂⟩ := allocStep_true_consumed _ _ halloc₂
              by_cases hfull : cap - 1 ≤ count
              · cases halloc₃ : allocStep oracle₂ with
                | mk ok₃ oracle₃ =>
                  cases ok₃ with
                  | false =>
                    simp [create_filtered_env, halloc₀, hloop, halloc₂, hfull, halloc₃] at h
                  | true =>
                    obtain ⟨used₃, hu₃, ha₃⟩ := allocStep_true_consumed _ _ halloc₃
                    refine ⟨used₀ ++ used₁ ++ used₂ ++ used₃, oracle₃, ?_, ?_⟩
                    · rw [hu₀, hu₁, hu₂, hu₃]; simp [List.append_assoc]
                    · intro b hb
                      simp at hb
                      rcases hb with hb | hb | hb | hb
                      exacts [ha₀ b hb, ha₁ b hb, ha₂ b hb, ha₃ b hb]
              · refine ⟨used₀ ++ used₁ ++ used₂, oracle₂, ?_, ?_⟩
                · rw [hu₀, hu₁, hu₂]; simp [List.append_assoc]
                · intro b hb
                  simp at hb
                  rcases hb with hb | hb | hb
                  exacts [ha₀ b hb, ha₁ b hb, ha₂ b hb]

/-- Every error exit of the builder clears the array handle and the count
together: a NULL result always carries count 0. -/
theorem create_filtered_env_error_count (file : Option (List CStr)) (f : CStr)
    (src : List CStr) (oracle : List Bool)
    (h : (create_filtered_env file f src oracle).vars = none) :
    (create_filtered_env file f src oracle).count = 0 := by
  cases file with
  | none => rfl
  | some L =>
    cases halloc₀ : allocStep oracle with
    | mk ok₀ oracle₀ =>
      cases ok₀ with
      | false => simp [create_filtered_env, halloc₀]
      | true =>
        cases hloop : filterLoop src L [] 0 10 oracle₀ with
        | none => simp [create_filtered_env, halloc₀, hloop]
        | some r =>
          obtain ⟨acc, count, cap, oracle₁⟩ := r
          cases halloc₂ : allocStep oracle₁ with
          | mk ok₂ oracle₂ =>
            cases ok₂ with
            | false => simp [create_filtered_env, halloc₀, hloop, halloc₂]
            | true =>
              by_cases hfull : cap - 1 ≤ count
              · cases halloc₃ : allocStep oracle₂ with
                | mk ok₃ oracle₃ =>
                  cases ok₃ with
                  | false =>
                    simp [create_filtered_env, halloc₀, hloop, halloc₂, hfull, halloc₃]
                  | true =>
                    simp [create_filtered_env, halloc₀, hloop, halloc₂, hfull, halloc₃] at h
              · simp [create_filtered_env, halloc₀, hloop, halloc₂, hfull] at h

theorem scan_env_first_match (name v : CStr) (post : List CStr) :
    ∀ pre : List CStr, (∀ e ∈ pre, (name ++ ['=']).isPrefixOf e = false) →
      scan_env name (pre ++ (name ++ '=' :: v) :: post) = some v := by
  intro pre
  induction pre with
  | nil =>
    intro _
    have hpref : (name ++ ['=']).isPrefixOf (name ++ '=' :: v) = true := by
      rw [ List.isPrefixOf_iff_prefix]
      have h := List.prefix_append (name ++ ['=']) v
      simp only [List.append_assoc, List.singleton_append] at h
      exact h
    have hdrop : (name ++ '=' :: v).drop (name.length + 1) = v := by
      have h₁ : name ++ '=' :: v = (name ++ ['=']) ++ v := by simp
      have h₂ : name.length + 1 = (name ++ ['=']).length := by simp
      rw [h₁, h₂, List.drop_left]
    simp [scan_env, hpref, hdrop]
  | cons e pre ih =>
    intro h
    have he := h e (List.mem_cons_self _ _)
    have hrest := fun x hx => h x (List.mem_cons_of_mem _ hx)
    simpa [scan_env, he] using ih hrest

/-! ## Claim theorems -/

/-- C10: `find_env_var_value`, the lookup `create_filtered_env` builds
entries with, returns the value of the FIRST entry whose text is the
name immediately followed by an equals sign, regardless of any later
duplicate entries for the same name. -/
theorem find_env_var_value_first_match (name v : CStr) (pre post : List CStr)
    (hname : name ≠ [])
    (hpre : ∀ e ∈ pre, (name ++ ['=']).isPrefixOf e = false) :
    find_env_var_value name (pre ++ (name ++ '=' :: v) :: post) = some v := by
  have hlen : ¬ name.length = 0 := by simpa using hname
  unfold find_env_var_value
  rw [if_neg hlen]
  exact scan_env_first_match name v post pre hpre

theorem find_env_var_value_first_match_witness :
    find_env_var_value ("A".toList) ["A=1".toList, "A=2".toList] = some ("1".toList) := by
  have h := find_env_var_value_first_match ("A".toList) ("1".toList) []
    ["A=2".toList] (by decide) (by decide)
  exact h

/-- C8: releasing a filtered environment clears the handle (array
null-equivalent, count and capacity 0); a second release of the cleared
structure is a no-op that frees nothing, and releasing through a NULL
structure pointer is a no-op as well. -/
theorem free_env_list_idempotent (l : env_list_t) :
    free_env_list none = (none, []) ∧
    (free_env_list (some l)).1 = some { vars := none, count := 0, capacity := 0 } ∧
    free_env_list ((free_env_list (some l)).1) =
      (some { vars := none, count := 0, capacity := 0 }, []) := by
  refine ⟨rfl, ?_, ?_⟩ <;> cases h : l.vars <;> simp [free_env_list, h]

/-- C6: once the worker counter has reached the ceiling, the launch is
rejected up front with the too-many-workers error: no fork is attempted,
no process is created, no worker number is consumed, and nothing else
about the inputs is consulted. -/
theorem launch_child_too_many (n : Nat) (method : Char) (main_envp environ : List CStr)
    (file : Option (List CStr)) (f : CStr) (oracle : List Bool) (fork_ok : Bool)
    (h : MAX_CHILDREN ≤ n) :
    launch_child false n method main_envp environ file f oracle fork_ok =
      ⟨-1, n, false, false, none, some .tooManyChildren⟩ := by
  simp [launch_child, h]

theorem launch_child_too_many_witness :
    launch_child false 100 '+' [] [] none [] [] true =
      ⟨-1, 100, false, false, none, some .tooManyChildren⟩ :=
  launch_child_too_many 100 '+' [] [] none [] [] true (by decide)

/-- C7: the three lookup strategies for the launcher-directory variable —
the canonical facility over the process-wide table, the scan of the
caller-supplied snapshot, and the scan of the process-wide table — give
identical launch outcomes whenever the snapshot and the table agree on
the lookup, and the canonical facility coincides with the explicit scan. -/
theorem launch_methods_agree (sig : Bool) (n : Nat) (main_envp environ : List CStr)
    (file : Option (List CStr)) (f : CStr) (oracle : List Bool) (fork_ok : Bool)
    (h : find_env_var_value CHILD_PATH_VAR main_envp =
      find_env_var_value CHILD_PATH_VAR environ) :
    launch_child sig n '+' main_envp environ file f oracle fork_ok =
      launch_child sig n '*' main_envp environ file f oracle fork_ok ∧
    launch_child sig n '*' main_envp environ file f oracle fork_ok =
      launch_child sig n '&' main_envp environ file f oracle fork_ok ∧
    c_getenv CHILD_PATH_VAR environ = find_env_var_value CHILD_PATH_VAR environ := by
  have hg : c_getenv CHILD_PATH_VAR environ = find_env_var_value CHILD_PATH_VAR environ :=
    c_getenv_eq_find _ _ (by decide)
  have h₁ : ('*' : Char) ≠ '+' := by decide
  have h₂ : ('&' : Char) ≠ '+' := by decide
  have h₃ : ('&' : Char) ≠ '*' := by decide
  refine ⟨?_, ?_, hg⟩ <;> simp [launch_child, hg, h, h₁, h₂, h₃]

theorem launch_methods_agree_witness :
    launch_child false 0 '+' ["CHILD_PATH=/tmp".toList] ["CHILD_PATH=/tmp".toList]
        (some []) ("env".toList) [] true =
      launch_child false 0 '*' ["CHILD_PATH=/tmp".toList] ["CHILD_PATH=/tmp".toList]
        (some []) ("env".toList) [] true ∧
    launch_child false 0 '*' ["CHILD_PATH=/tmp".toList] ["CHILD_PATH=/tmp".toList]
        (some []) ("env".toList) [] true =
      launch_child false 0 '&' ["CHILD_PATH=/tmp".toList] ["CHILD_PATH=/tmp".toList]
        (some []) ("env".toList) [] true ∧
    c_getenv CHILD_PATH_VAR ["CHILD_PATH=/tmp".toList] =
      find_env_var_value CHILD_PATH_VAR ["CHILD_PATH=/tmp".toList] :=
  launch_methods_agree false 0 ["CHILD_PATH=/tmp".toList] ["CHILD_PATH=/tmp".toList]
    (some []) ("env".toList) [] true (by decide)

/-- C5: the worker counter is an invariant of `launch_child` — any call
that returns the error result leaves the counter unchanged (likewise any
call that takes a failure exit), a successful call assigns the current
counter value as the worker number (via `argv[0]`), creates the process,
and increments the counter by exactly one, and the counter never
decreases, so numbers are monotone and never reused. -/
theorem launch_child_counter (sig : Bool) (n : Nat) (method : Char)
    (main_envp environ : List CStr) (file : Option (List CStr)) (f : CStr)
    (oracle : List Bool) (fork_ok : Bool) :
    ((launch_child sig n method main_envp environ file f oracle fork_ok).ret = -1 →
      (launch_child sig n method main_envp environ file f oracle fork_ok).g_child_number
        = n) ∧
    ((launch_child sig n method main_envp environ file f oracle fork_ok).err.isSome = true →
      (launch_child sig n method main_envp environ file f oracle fork_ok).g_child_number
        = n) ∧
    ((launch_child sig n method main_envp environ file f oracle fork_ok).ret = 0 →
      (launch_child sig n method main_envp environ file f oracle fork_ok).g_child_number
          = n + 1 ∧
      (launch_child sig n method main_envp environ file f oracle fork_ok).childArgv0
          = some (CHILD_EXECUTABLE_NAME ++ '_' :: format2d n) ∧
      (launch_child sig n method main_envp environ file f oracle fork_ok).processCreated
          = true) ∧
    n ≤ (launch_child sig n method main_envp environ file f oracle fork_ok).g_child_number := by
  unfold launch_child
  repeat' split
  all_goals try simp
  all_goals repeat' split
  all_goals try simp

theorem launch_child_counter_witness :
    (launch_child false 0 '+' [] ["HOME=/root".toList] (some []) ("env".toList)
      [] true).g_child_number = 0 ∧
    (launch_child false 0 '+' [] ["CHILD_PATH=/tmp".toList] (some []) ("env".toList)
      [] true).g_child_number = 1 ∧
    (launch_child false 0 '+' [] ["CHILD_PATH=/tmp".toList] (some []) ("env".toList)
      [] true).childArgv0 = some ("child_00".toList) := by
  have hfail := launch_child_counter false 0 '+' [] ["HOME=/root".toList]
    (some []) ("env".toList) [] true
  have hok := launch_child_counter false 0 '+' [] ["CHILD_PATH=/tmp".toList]
    (some []) ("env".toList) [] true
  refine ⟨hfail.1 (by decide), (hok.2.2.1 (by decide)).1, ?_⟩
  have h := (hok.2.2.1 (by decide)).2.1
  rw [h]
  rfl

/-- C1: for a manifest all of whose processed (non-blank, non-comment)
lines resolve in the source environment, the builder returns the
processed lines rendered as name, equals sign, source value, in manifest
order, followed by the sentinel entry as the last element before the NULL
terminator, and the count is the number of such lines plus one. -/
theorem create_filtered_env_all_present (L : List CStr) (f : CStr) (src : List CStr)
    (h : ∀ raw ∈ L, skip_line (clean_line raw) = false →
      (find_env_var_value (clean_line raw) src).isSome = true) :
    (create_filtered_env (some L) f src []).vars =
      some ((processedLines L).map
        (fun l => l ++ '=' :: ((find_env_var_value l src).getD [])) ++
        [sentinel_entry f]) ∧
    (create_filtered_env (some L) f src []).count = (processedLines L).length + 1 := by
  obtain ⟨cap', h₁, _⟩ := create_filtered_env_empty_oracle L f src
  rw [h₁]
  have he := entriesOf_all_present src L h
  exact ⟨by simp [he], by simp [he]⟩

theorem create_filtered_env_all_present_witness :
    (create_filtered_env (some ["FOO\n".toList, "# c\n".toList]) ("env".toList)
        ["FOO=1".toList, "BAZ=2".toList] []).vars =
      some ((processedLines ["FOO\n".toList, "# c\n".toList]).map
        (fun l => l ++ '=' ::
          ((find_env_var_value l ["FOO=1".toList, "BAZ=2".toList]).getD [])) ++
        [sentinel_entry ("env".toList)]) ∧
    (create_filtered_env (some ["FOO\n".toList, "# c\n".toList]) ("env".toList)
        ["FOO=1".toList, "BAZ=2".toList] []).count =
      (processedLines ["FOO\n".toList, "# c\n".toList]).length + 1 :=
  create_filtered_env_all_present ["FOO\n".toList, "# c\n".toList] ("env".toList)
    ["FOO=1".toList, "BAZ=2".toList] (by decide)

/-- C9: lines naming a variable absent from the source environment are
silently omitted: the result still is a valid NULL-terminated array whose
entries are exactly the resolving processed lines in order followed by
the sentinel, its count is the number of resolving lines plus one, and
the count plus one per omitted line equals the all-present count. -/
theorem create_filtered_env_absent_omitted (L : List CStr) (f : CStr) (src : List CStr) :
    (create_filtered_env (some L) f src []).vars =
      some ((foundLines src L).map
        (fun l => l ++ '=' :: ((find_env_var_value l src).getD [])) ++
        [sentinel_entry f]) ∧
    (create_filtered_env (some L) f src []).count = (foundLines src L).length + 1 ∧
    (create_filtered_env (some L) f src []).count +
      ((processedLines L).filter
        (fun l => !((find_env_var_value l src).isSome))).length =
      (processedLines L).length + 1 := by
  obtain ⟨cap', h₁, _⟩ := create_filtered_env_empty_oracle L f src
  rw [h₁]
  have he := entriesOf_eq_foundLines_map src L
  refine ⟨by simp [he], by simp [he], ?_⟩
  have ht := foundLines_length_add_missing src L
  simp [he] at ht ⊢
  omega

/-- Manifest whose lines are all skipped: the loop neither appends nor
consults the source environment. -/
theorem filterLoop_all_skip (src : List CStr) :
    ∀ (L : List CStr) (acc : List CStr) (count cap : Nat) (oracle : List Bool),
      (∀ raw ∈ L, skip_line (clean_line raw) = true) →
      filterLoop src L acc count cap oracle = some (acc, count, cap, oracle) := by
  intro L
  induction L with
  | nil => intro acc count cap oracle _; rfl
  | cons raw rest ih =>
    intro acc count cap oracle h
    have hskip := h raw (List.mem_cons_self _ _)
    have hrest := fun r hr => h r (List.mem_cons_of_mem _ hr)
    simp only [filterLoop, hskip, if_true]
    exact ih acc count cap oracle hrest

/-- C4: error and success are distinguishable at the interface — an
unopenable manifest yields the NULL array with count 0; every error
return carries the NULL array together with count 0; a run that returns
a non-NULL array consulted no failing allocation (so any failing
allocation forces the NULL result); and a successful run over an empty
or fully commented manifest returns a non-NULL array holding exactly the
sentinel entry. -/
theorem create_filtered_env_error_vs_success (f : CStr) (src : List CStr)
    (oracle : List Bool) (file : Option (List CStr)) (L : List CStr) :
    ((create_filtered_env none f src oracle).vars = none ∧
      (create_filtered_env none f src oracle).count = 0) ∧
    ((create_filtered_env file f src oracle).vars = none →
      (create_filtered_env file f src oracle).count = 0) ∧
    ((create_filtered_env file f src oracle).vars.isSome = true →
      ∃ used rest, oracle = used ++ rest ∧ ∀ b ∈ used, b = true) ∧
    ((∀ raw ∈ L, skip_line (clean_line raw) = true) →
      create_filtered_env (some L) f src [] =
        { vars := some [sentinel_entry f], count := 1, capacity := 10 }) := by
  refine ⟨⟨rfl, rfl⟩, create_filtered_env_error_count file f src oracle,
    create_filtered_env_consumed file f src oracle, ?_⟩
  intro hAll
  have hloop := filterLoop_all_skip src L [] 0 10 [] hAll
  simp [create_filtered_env, allocStep, hloop]

theorem create_filtered_env_error_vs_success_witness :
    (create_filtered_env (some []) ("env".toList) [] [false]).count = 0 ∧
    (∃ used rest, ([] : List Bool) = used ++ rest ∧ ∀ b ∈ used, b = true) ∧
    create_filtered_env (some ["# x\n".toList]) ("env".toList) [] [] =
      { vars := some [sentinel_entry ("env".toList)], count := 1, capacity := 10 } := by
  refine ⟨(create_filtered_env_error_vs_success ("env".toList) [] [false]
      (some []) []).2.1 (by decide),
    (create_filtered_env_error_vs_success ("env".toList) [] [] (some []) []).2.2.1
      (by decide),
    (create_filtered_env_error_vs_success ("env".toList) [] [] (some ["# x\n".toList])
      ["# x\n".toList]).2.2.2 (by decide)⟩

/-- C2 (counterexample): `create_filtered_env` does NOT process lines as
the claim states. On the line with a trailing space, the spec-side
cleaning yields a name present in the source environment, yet the code
keeps the space, fails the lookup, and omits the entry (count is 1, the
sentinel alone); on a CRLF line the code keeps the carriage return. -/
theorem create_filtered_env_line_handling_counterexample :
    clean_line ("FOO \n".toList) ≠ spec_clean_line ("FOO \n".toList) ∧
    clean_line ("FOO\r\n".toList) ≠ spec_clean_line ("FOO\r\n".toList) ∧
    spec_clean_line ("FOO \n".toList) = "FOO".toList ∧
    (find_env_var_value ("FOO".toList) ["FOO=1".toList]).isSome = true ∧
    (create_filtered_env (some ["FOO \n".toList]) ("env".toList)
      ["FOO=1".toList] []).count = 1 ∧
    clean_line (" # c\n".toList) = " # c".toList ∧
    skip_line (" # c".toList) = false ∧
    skip_line (spec_clean_line (" # c\n".toList)) = true := by
  refine ⟨by decide, by decide, by decide, by decide, ?_, by decide, by decide, by decide⟩
  rfl

/-- C2 (amended): for every manifest line, `create_filtered_env` strips a
trailing bare newline only (the carriage return of a CRLF pair is kept as
part of the name), performs no whitespace trimming, and ignores the line
exactly when, after that stripping, it is empty or its first character —
not its first non-whitespace character — is the comment character. -/
theorem create_filtered_env_line_handling (raw : CStr) (L : List CStr) (f : CStr)
    (src : List CStr) :
    (create_filtered_env (some (raw :: L)) f src []).vars =
      some ((if (if raw.getLast? = some '\n' then raw.dropLast else raw) = [] ∨
              (if raw.getLast? = some '\n' then raw.dropLast else raw).head? = some '#' then
              entriesOf src L
            else
              match find_env_var_value
                  (if raw.getLast? = some '\n' then raw.dropLast else raw) src with
              | none => entriesOf src L
              | some v =>
                ((if raw.getLast? = some '\n' then raw.dropLast else raw) ++ '=' :: v) ::
                  entriesOf src L) ++ [sentinel_entry f]) := by
  obtain ⟨cap', h₁, _⟩ := create_filtered_env_empty_oracle (raw :: L) f src
  rw [h₁, entriesOf_cons]
  by_cases hs : (if raw.getLast? = some '\n' then raw.dropLast else raw) = [] ∨
      (if raw.getLast? = some '\n' then raw.dropLast else raw).head? = some '#'
  · rw [if_pos (show skip_line (clean_line raw) = true by
      simpa [skip_line, clean_line] using hs), if_pos hs]
  · rw [if_neg (show ¬ skip_line (clean_line raw) = true by
      simpa [skip_line, clean_line] using hs), if_neg hs]
    rfl

/-- C3 (counterexample): a successfully returned filtered environment can
contain an element with more than one equals sign — when the stored value
itself contains one — so the claimed "exactly one `=` per element"
invariant fails. -/
theorem create_filtered_env_invariant_counterexample :
    (create_filtered_env (some ["A\n".toList]) ("env".toList) ["A=b=c".toList] []).vars =
      some ["A=b=c".toList, "CHILD_ENV_FILTER_FILE=env".toList] ∧
    ("A=b=c".toList).count '=' = 2 := by
  constructor
  · rfl
  · decide

/-- C3 (amended): the array is NULL-terminated at index count (rescanning
to NULL re-derives the recorded count), the capacity is at least count
plus one, and every element is a non-empty string containing at least one
equals sign; when no processed manifest line begins with an equals sign,
the text before each element's first equals sign — the name — is
non-empty (the value after it may be empty, and may itself contain
further equals signs). -/
theorem create_filtered_env_invariant (L : List CStr) (f : CStr) (src : List CStr) :
    (create_filtered_env (some L) f src []).vars =
      some (entriesOf src L ++ [sentinel_entry f]) ∧
    (entriesOf src L ++ [sentinel_entry f]).length =
      (create_filtered_env (some L) f src []).count ∧
    (create_filtered_env (some L) f src []).count + 1 ≤
      (create_filtered_env (some L) f src []).capacity ∧
    (∀ e ∈ entriesOf src L ++ [sentinel_entry f], e ≠ [] ∧ '=' ∈ e) ∧
    ((∀ raw ∈ L, (clean_line raw).head? ≠ some '=') →
      ∀ e ∈ entriesOf src L ++ [sentinel_entry f], e.head? ≠ some '=') := by
  obtain ⟨cap', h₁, h₂⟩ := create_filtered_env_empty_oracle L f src
  rw [h₁]
  refine ⟨rfl, by simp, by simp; omega, ?_, ?_⟩
  · intro e he
    rcases List.mem_append.mp he with he' | he'
    · obtain ⟨raw, v, _, _, _, hshape⟩ := entriesOf_shape src L e he'
      subst hshape
      constructor
      · simp
      · exact List.mem_append.mpr (Or.inr (List.mem_cons_self _ _))
    · rw [List.mem_singleton.mp he']
      constructor
      · simp [sentinel_entry, ENV_VAR_FILTER_FILE_NAME]
      · exact List.mem_append.mpr (Or.inr (List.mem_cons_self _ _))
  · intro hL e he
    rcases List.mem_append.mp he with he' | he'
    · obtain ⟨raw, v, hraw, hskip, _, hshape⟩ := entriesOf_shape src L e he'
      subst hshape
      have hne : clean_line raw ≠ [] := ((skip_line_eq_false_iff _).mp hskip).1
      rw [List.head?_append_of_ne_nil _ hne]
      exact hL raw hraw
    · rw [List.mem_singleton.mp he']
      unfold sentinel_entry
      rw [List.head?_append_of_ne_nil _ (by decide)]
      decide

theorem create_filtered_env_invariant_witness :
    (create_filtered_env (some ["A\n".toList]) ("env".toList) ["A=x".toList] []).count + 1 ≤
      (create_filtered_env (some ["A\n".toList]) ("env".toList) ["A=x".toList] []).capacity ∧
    (∀ e ∈ entriesOf ["A=x".toList] ["A\n".toList] ++ [sentinel_entry ("env".toList)],
      e.head? ≠ some '=') := by
  have h := create_filtered_env_invariant ["A\n".toList] ("env".toList) ["A=x".toList]
  exact ⟨h.2.2.1, h.2.2.2.2 (by decide)⟩

end OsaspLab2
